import Mathlib

/- Verification of the daily-rotating log writer of package `logging`
   (sloglogger.go, factory.go, logger.go, config).

   Shallow embedding conventions:
   * paths, dates and other Go strings are lists of characters (`Str`);
   * file contents are lists of bytes (`Bytes`);
   * the directory holding the log files is modelled as a list of directory
     entries (name, directory flag, modification time, content) — the writer
     only ever works inside the single directory of its base path, so names
     are directory-local;
   * fallible OS calls are driven by an explicit environment (`OsEnv`)
     recording which calls fail, and return `Option WError`. -/

abbrev Str : Type := List Char

abbrev Bytes : Type := List Nat

/-- Model of Go `filepath.Ext`'s backward scan: walk the reversed path,
stop at a path separator, return the suffix starting at the first dot
found.  The accumulator holds the characters already passed, in original
order. -/
def extAux : List Char → List Char → List Char
  | [], _ => []
  | c :: rest, acc =>
    if c = '/' then []
    else if c = '.' then c :: acc
    else extAux rest (c :: acc)

/-- Go `filepath.Ext`: the suffix beginning at the final dot in the final
slash-separated element of the path; empty if there is none. -/
def goExt (p : Str) : Str := extAux p.reverse []

/-- The `basename` computed at sloglogger.go lines 195-198: the base path
with its extension cut off (`basePath[:len(basePath)-len(ext)]`). -/
def stemOf (p : Str) : Str := p.take (p.length - (goExt p).length)

/-- The rotated filename derived at sloglogger.go lines 193-202:
`fmt.Sprintf("%s-%s%s", basename, today, ext)`, with `".log"` appended when
the extension is empty. -/
def rotatedName (basePath today : Str) : Str :=
  let ext := goExt basePath
  let basename := if ext = [] then basePath else stemOf basePath
  let n := basename ++ ['-'] ++ today ++ ext
  if ext = [] then n ++ ['.', 'l', 'o', 'g'] else n

theorem extAux_cases (l acc : List Char) :
    extAux l acc = [] ∨
      ∃ t pre, extAux l acc = '.' :: t ∧ l.reverse ++ acc = pre ++ '.' :: t := by
  induction l generalizing acc with
  | nil => exact Or.inl rfl
  | cons c rest ih =>
    by_cases h1 : c = '/'
    · left
      simp [extAux, h1]
    · by_cases h2 : c = '.'
      · right
        refine ⟨acc, rest.reverse, ?_, ?_⟩
        · simp [extAux, h1, h2]
        · subst h2
          simp
      · have hstep : extAux (c :: rest) acc = extAux rest (c :: acc) := by
          simp [extAux, h1, h2]
        rw [hstep]
        rcases ih (c :: acc) with h | ⟨t, pre, he, hp⟩
        · exact Or.inl h
        · right
          refine ⟨t, pre, he, ?_⟩
          simpa using hp

theorem goExt_eq_nil_or_dot (p : Str) : goExt p = [] ∨ ∃ t, goExt p = '.' :: t := by
  rcases extAux_cases p.reverse [] with h | ⟨t, _, he, _⟩
  · exact Or.inl h
  · exact Or.inr ⟨t, he⟩

/-- The extension returned by `goExt` is a genuine suffix of the path:
cutting it off with `stemOf` and gluing it back recovers the path. -/
theorem goExt_split (p : Str) : stemOf p ++ goExt p = p := by
  rcases extAux_cases p.reverse [] with h | ⟨t, pre, he, hp⟩
  · have hg : goExt p = [] := h
    rw [stemOf, hg]
    simp
  · have hg : goExt p = '.' :: t := he
    have hpe : p = pre ++ '.' :: t := by simpa using hp
    rw [stemOf, hg]
    conv_lhs => rw [hpe]
    have hl : (pre ++ '.' :: t).length - ('.' :: t).length = pre.length := by
      simp [List.length_append]
    rw [hl, List.take_left]
    exact hpe.symm

theorem stemOf_eq_of_ext_nil {p : Str} (h : goExt p = []) : stemOf p = p := by
  have := goExt_split p
  rw [h] at this
  simpa using this

/-- Claim C6: for every base path and date `D`, the rotated filename the
rotation check derives equals `stem ++ "-" ++ D ++ ext`, where `stem` and
`ext` split the base path at its last extension (`stem ++ ext = base`);
when the base path has no extension the derived name is
`base ++ "-" ++ D ++ ".log"`. -/
theorem c6_rotated_name (base D : Str) :
    stemOf base ++ goExt base = base ∧
      rotatedName base D =
        stemOf base ++ ['-'] ++ D ++
          (if goExt base = [] then ['.', 'l', 'o', 'g'] else goExt base) := by
  refine ⟨goExt_split base, ?_⟩
  by_cases h : goExt base = []
  · have hs : stemOf base = base := stemOf_eq_of_ext_nil h
    simp [rotatedName, h, hs, List.append_assoc]
  · simp [rotatedName, h]

/-- An OS-level file handle as the writer sees it: the name of the file it
was opened for and whether it is still open.  Go's `os.File.Close` releases
the handle even when it reports an error, and closing an already-closed
handle reports an error; both facts are reflected below. -/
structure Handle where
  hname : Str
  isOpen : Bool
deriving DecidableEq, Repr

/-- A directory entry as returned by `os.ReadDir` plus the data the writer
cares about: modification time (as observed via `os.Stat`) and content.
Modification-time updates on writes are not modelled: no claim relates a
write to a later pruning decision. -/
structure DirEntry where
  name : Str
  isDir : Bool
  mtime : Nat
  content : Bytes
deriving DecidableEq, Repr

/-- The directory of the base path, the only directory the writer touches. -/
abbrev Disk : Type := List DirEntry

/-- The fields of `DailyRotateWriter` (sloglogger.go lines 18-25).
`stopped` models the `stopCh` channel having been closed. -/
structure WState where
  basePath : Str
  file : Option Handle
  lastDate : Str
  stopped : Bool
  maxFiles : Int
deriving DecidableEq, Repr

/-- Environment fixing the outcome of each fallible OS call made by one
rotation check: close of the old file, `os.MkdirAll`, the temp-file
writability probe, the append-open check of an existing target, the
create-open of the target, and per-file `os.Remove` failures.  `newMtime`
is the modification time stamped on a newly created file. -/
structure OsEnv where
  closeFails : Bool
  mkdirFails : Bool
  probeFails : Bool
  existingCheckFails : Bool
  openFails : Bool
  removeFailSet : List Str
  newMtime : Nat
deriving DecidableEq, Repr

/-- The errors the writer surfaces (sloglogger.go: `Write`,
`rotateIfNeeded`, `cleanOldLogFiles`, `Close`). -/
inductive WError where
  | notInitialized
  | closedHandle
  | closeFailed
  | mkdirFailed
  | dirNotWritable
  | existingNotWritable
  | openFailed
  | pruneFailed (nm : Str)
deriving DecidableEq, Repr

/-- Look up a directory entry by name. -/
def diskGet : Disk → Str → Option DirEntry
  | [], _ => none
  | e :: rest, nm => if e.name = nm then some e else diskGet rest nm

def diskHas (d : Disk) (nm : Str) : Bool :=
  (diskGet d nm).isSome

/-- Append bytes to the file of the given name (the effect of a successful
`file.Write` on the file opened in append mode). -/
def appendTo (d : Disk) (nm : Str) (p : Bytes) : Disk :=
  d.map fun e => if e.name = nm then { e with content := e.content ++ p } else e

/-- `DailyRotateWriter.Write` (sloglogger.go lines 101-111): snapshot the
handle under the read lock; nil handle is "log file not initialized";
otherwise delegate to the OS write, which fails on a released handle. -/
def write (s : WState) (d : Disk) (p : Bytes) : (Nat × Option WError) × Disk :=
  match s.file with
  | none => ((0, some WError.notInitialized), d)
  | some h =>
    if h.isOpen then ((p.length, none), appendTo d h.hname p)
    else ((0, some WError.closedHandle), d)

/-- A sequence of `Write` calls in acceptance order (the disk after each). -/
def writeAll (s : WState) (d : Disk) (bs : List Bytes) : Disk :=
  bs.foldl (fun dd b => (write s dd b).2) d

/-- `DailyRotateWriter.Close` (sloglogger.go lines 114-130): close `stopCh`
idempotently, then close the current file if the field is non-nil.  The
field is never cleared.  Closing releases the handle even when the close
reports an error; a close of an already-released handle reports an error. -/
def closeW (env : OsEnv) (s : WState) : Option WError × WState :=
  let s1 := { s with stopped := true }
  match s1.file with
  | none => (none, s1)
  | some h =>
    if h.isOpen = false then (some WError.closedHandle, s1)
    else if env.closeFails then
      (some WError.closeFailed, { s1 with file := some { h with isOpen := false } })
    else (none, { s1 with file := some { h with isOpen := false } })

/-- The candidate filter of `cleanOldLogFiles` (sloglogger.go lines
268-281): not a directory, name starts with `basename + "-"`, and name ends
with the base extension, or with ".log" when the base has no extension.
(When the extension is empty the first suffix test is vacuously true, as
`strings.HasSuffix(name, "")` is in Go.) -/
def logPat (base : Str) (e : DirEntry) : Bool :=
  let ext := goExt base
  let stem := if ext = [] then base else stemOf base
  !e.isDir && (stem ++ ['-']).isPrefixOf e.name &&
    (ext.isSuffixOf e.name || (decide (ext = []) && ['.', 'l', 'o', 'g'].isSuffixOf e.name))

/-- The sort order of sloglogger.go lines 289-293: ascending modification
time.  `sort.Slice` guarantees exactly that the result is a permutation
ordered by this relation. -/
def entLE (a b : DirEntry) : Prop := a.mtime ≤ b.mtime

instance : DecidableRel entLE := fun a b => Nat.decLe a.mtime b.mtime

instance : IsTotal DirEntry entLE := ⟨fun a b => Nat.le_total a.mtime b.mtime⟩

instance : IsTrans DirEntry entLE := ⟨fun _ _ _ => Nat.le_trans⟩

/-- Effect of `os.Remove` on the directory. -/
def removeEntry (d : Disk) (nm : Str) : Disk :=
  d.filter fun e => !(e.name = nm : Bool)

/-- The deletion loop of sloglogger.go lines 296-300: remove the listed
files in order; the first failure aborts the loop and names the file;
files already removed stay removed. -/
def deleteOldest (env : OsEnv) (nms : List Str) (d : Disk) : Option Str × Disk :=
  match nms with
  | [] => (none, d)
  | n :: rest =>
    if n ∈ env.removeFailSet then (some n, d)
    else deleteOldest env rest (removeEntry d n)

/-- `DailyRotateWriter.cleanOldLogFiles` (sloglogger.go lines 257-302):
filter the directory by the naming pattern, no-op when at most `maxFiles`
candidates, otherwise sort ascending by modification time and delete the
oldest `count - maxFiles`. -/
def cleanOldLogFiles (env : OsEnv) (s : WState) (d : Disk) : Option Str × Disk :=
  if ((d.filter (logPat s.basePath)).length : Int) ≤ s.maxFiles then (none, d)
  else
    deleteOldest env
      (((List.insertionSort entLE (d.filter (logPat s.basePath))).take
        ((d.filter (logPat s.basePath)).length - s.maxFiles.toNat)).map DirEntry.name) d

/-- Effect of `os.OpenFile(newFilename, O_CREATE|O_WRONLY|O_APPEND, 0644)`
on the directory: create the file empty when absent, leave it untouched
when present. -/
def ensureFile (d : Disk) (nm : Str) (mt : Nat) : Disk :=
  if diskHas d nm then d else d ++ [⟨nm, false, mt, []⟩]

/-- The tail of `rotateIfNeeded` after the old file was dealt with
(sloglogger.go lines 212-253): directory creation, the writability probe
(whose successful create-then-remove of a fresh temp name is a net no-op on
the directory), the append-open check of an existing target, creation of
the target, commit of handle and date, then pruning when `maxFiles > 0`. -/
def rotateOpenPhase (env : OsEnv) (today : Str) (s : WState) (d : Disk) (newName : Str) :
    Option WError × WState × Disk :=
  if env.mkdirFails then (some WError.mkdirFailed, s, d)
  else if env.probeFails then (some WError.dirNotWritable, s, d)
  else if diskHas d newName && env.existingCheckFails then
    (some WError.existingNotWritable, s, d)
  else if env.openFails then (some WError.openFailed, s, d)
  else if 0 < s.maxFiles then
    match cleanOldLogFiles env { s with file := some ⟨newName, true⟩, lastDate := today }
        (ensureFile d newName env.newMtime) with
    | (some nm, d2) =>
      (some (WError.pruneFailed nm), { s with file := some ⟨newName, true⟩, lastDate := today }, d2)
    | (none, d2) => (none, { s with file := some ⟨newName, true⟩, lastDate := today }, d2)
  else (none, { s with file := some ⟨newName, true⟩, lastDate := today },
    ensureFile d newName env.newMtime)

/-- `DailyRotateWriter.rotateIfNeeded` (sloglogger.go lines 183-254).
Fast path: file non-nil and recorded date equal to today.  Otherwise the
old file, if any, is closed — on a close error the function returns early
*without clearing the file field* (the `drw.file = nil` assignment is only
reached on close success); a close releases the handle even when it errors,
and closing an already-released handle errors. -/
def rotateIfNeeded (env : OsEnv) (today : Str) (s : WState) (d : Disk) :
    Option WError × WState × Disk :=
  if s.file.isSome = true ∧ s.lastDate = today then (none, s, d)
  else
    let newName := rotatedName s.basePath today
    match s.file with
    | some h =>
      if h.isOpen = false || env.closeFails then
        (some WError.closeFailed, { s with file := some { h with isOpen := false } }, d)
      else rotateOpenPhase env today { s with file := none } d newName
    | none => rotateOpenPhase env today s d newName

/-- The operations a caller can invoke on a constructed writer. -/
inductive WOp where
  | wr (p : Bytes)
  | cl (env : OsEnv)
  | rot (env : OsEnv) (today : Str)

/-- One operation applied to (writer state, disk). -/
def stepOp (op : WOp) (sd : WState × Disk) : WState × Disk :=
  match op with
  | WOp.wr p => (sd.1, (write sd.1 sd.2 p).2)
  | WOp.cl env => ((closeW env sd.1).2, sd.2)
  | WOp.rot env today =>
    let r := rotateIfNeeded env today sd.1 sd.2
    (r.2.1, r.2.2)

/-- A sequence of operations applied in order. -/
def runOps (ops : List WOp) (sd : WState × Disk) : WState × Disk :=
  ops.foldl (fun x op => stepOp op x) sd

/-- The writer is in the Open lifecycle state: it holds a live handle. -/
def isOpenSt (s : WState) : Prop :=
  ∃ h, s.file = some h ∧ h.isOpen = true

/-- The writer holds a stale, already-released handle (the post-`Close`
situation: the field is non-nil but the handle is closed). -/
def staleClosed (s : WState) : Prop :=
  ∃ h, s.file = some h ∧ h.isOpen = false

theorem diskGet_appendTo (d : Disk) (nm : Str) (p : Bytes) :
    diskGet (appendTo d nm p) nm =
      (diskGet d nm).map fun e => { e with content := e.content ++ p } := by
  induction d with
  | nil => rfl
  | cons a d ih =>
    by_cases ha : a.name = nm
    · simp [diskGet, appendTo, ha]
    · simpa [diskGet, appendTo, ha] using ih

theorem appendTo_nil (d : Disk) (nm : Str) : appendTo d nm [] = d := by
  have hfun : ∀ e : DirEntry,
      (if e.name = nm then { e with content := e.content ++ [] } else e) = e := by
    intro e
    by_cases ha : e.name = nm
    · rw [if_pos ha]
      simp
    · rw [if_neg ha]
  unfold appendTo
  simp only [hfun, List.map_id']

theorem diskGet_writeAll (s : WState) (h : Handle)
    (hf : s.file = some h) (ho : h.isOpen = true) :
    ∀ (bs : List Bytes) (d : Disk) (e : DirEntry), diskGet d h.hname = some e →
      diskGet (writeAll s d bs) h.hname = some { e with content := e.content ++ bs.flatten } := by
  intro bs
  induction bs with
  | nil =>
    intro d e he
    simpa [writeAll] using he
  | cons b bs ih =>
    intro d e he
    have hw : (write s d b).2 = appendTo d h.hname b := by
      simp [write, hf, ho]
    have hstep : writeAll s d (b :: bs) = writeAll s (appendTo d h.hname b) bs := by
      simp [writeAll, hw]
    rw [hstep]
    have hget : diskGet (appendTo d h.hname b) h.hname =
        some { e with content := e.content ++ b } := by
      rw [diskGet_appendTo, he]
      rfl
    have := ih (appendTo d h.hname b) { e with content := e.content ++ b } hget
    simpa [List.append_assoc] using this

/-- Claim C1: on a writer whose current file is open and present on disk,
`Write(b)` returns exactly `len(b)` with no error and appends the bytes to
the currently open rotated file; a sequence of writes appends the buffers
in acceptance order; a zero-length write returns count 0, no error, and
leaves the disk unchanged. -/
theorem c1_write_appends (s : WState) (h : Handle) (d : Disk) (e : DirEntry)
    (hf : s.file = some h) (ho : h.isOpen = true) (he : diskGet d h.hname = some e) :
    (∀ p, write s d p = ((p.length, none), appendTo d h.hname p)) ∧
      (∀ p, diskGet (write s d p).2 h.hname =
        some { e with content := e.content ++ p }) ∧
      write s d [] = ((0, none), d) ∧
      (∀ bs, diskGet (writeAll s d bs) h.hname =
        some { e with content := e.content ++ bs.flatten }) := by
  refine ⟨fun p => by simp [write, hf, ho], fun p => ?_, ?_, fun bs => ?_⟩
  · have hw : (write s d p).2 = appendTo d h.hname p := by simp [write, hf, ho]
    rw [hw, diskGet_appendTo, he]
    rfl
  · simp [write, hf, ho, appendTo_nil]
  · exact diskGet_writeAll s h hf ho bs d e he

def envOk : OsEnv := ⟨false, false, false, false, false, [], 10⟩

def hOpen15 : Handle := ⟨"app-2024-01-15.log".data, true⟩

def sOpen15 : WState :=
  ⟨"app.log".data, some hOpen15, "2024-01-15".data, false, 0⟩

def dOne : Disk := [⟨"app-2024-01-15.log".data, false, 10, [7]⟩]

theorem c1_write_appends_witness :
    write sOpen15 dOne [1, 2] =
      ((2, none), appendTo dOne "app-2024-01-15.log".data [1, 2]) :=
  (c1_write_appends sOpen15 hOpen15 dOne ⟨"app-2024-01-15.log".data, false, 10, [7]⟩
    rfl rfl (by decide)).1 [1, 2]

/-- Claim C8: a rotation check invoked while a file is open and the
recorded date equals today returns success and is a no-op: writer state
(handle and date) and disk are unchanged, so the check is idempotent
within a day. -/
theorem c8_fast_path_noop (env : OsEnv) (today : Str) (s : WState) (d : Disk)
    (hf : s.file.isSome = true) (hd : s.lastDate = today) :
    rotateIfNeeded env today s d = (none, s, d) := by
  simp [rotateIfNeeded, hf, hd]

theorem c8_fast_path_noop_witness :
    rotateIfNeeded envOk "2024-01-15".data sOpen15 dOne = (none, sOpen15, dOne) :=
  c8_fast_path_noop envOk "2024-01-15".data sOpen15 dOne (by decide) (by decide)

def envCloseFail : OsEnv := ⟨true, false, false, false, false, [], 10⟩

def sOpen14 : WState :=
  ⟨"app.log".data, some ⟨"app-2024-01-14.log".data, true⟩, "2024-01-14".data, false, 0⟩

/-- Claim C2, counterexample: the claim asserts that after a failed close
during rotation the writer is left with *no open file* — the cleared
handle field that `Write` reports as "log file not initialized".  At this
concrete input (open file dated 2024-01-14, check on 2024-01-15, close
fails) the rotation check does return the close error, but the file field
is still set: the early `return` at sloglogger.go line 207 skips the
`drw.file = nil` assignment at line 209. -/
theorem c2_counterexample :
    (rotateIfNeeded envCloseFail "2024-01-15".data sOpen14 []).1 = some WError.closeFailed ∧
      (rotateIfNeeded envCloseFail "2024-01-15".data sOpen14 []).2.1.file ≠ none := by
  decide

/-- Claim C2 as amended: when the close of the current file fails during a
rotation that must rotate, the rotation check returns the close error and
leaves the file field holding the old — now released — handle rather than
clearing it; every subsequent `Write` fails (with a closed-handle error,
not "not initialized"), and every later rotation check on a different date
fails the same way again when it re-attempts to close the stale handle, so
no later check ever succeeds. -/
theorem c2_close_failure_keeps_handle (env : OsEnv) (today : Str) (s : WState)
    (d : Disk) (h : Handle) (hf : s.file = some h) (hdt : s.lastDate ≠ today)
    (hc : h.isOpen = false ∨ env.closeFails = true) :
    rotateIfNeeded env today s d =
        (some WError.closeFailed, { s with file := some { h with isOpen := false } }, d) ∧
      (∀ p, (write { s with file := some { h with isOpen := false } } d p).1 =
        (0, some WError.closedHandle)) ∧
      (∀ env2 today2 d2, today2 ≠ s.lastDate →
        rotateIfNeeded env2 today2 { s with file := some { h with isOpen := false } } d2 =
          (some WError.closeFailed, { s with file := some { h with isOpen := false } }, d2)) := by
  have hcond : ¬(s.file.isSome = true ∧ s.lastDate = today) := fun hx => hdt hx.2
  have hbool : (decide (h.isOpen = false) || env.closeFails) = true := by
    rcases hc with h1 | h1 <;> simp [h1]
  refine ⟨?_, fun p => by simp [write], fun env2 today2 d2 hne => ?_⟩
  · rw [rotateIfNeeded, if_neg hcond, hf]
    simp only [hbool]
    rw [if_pos trivial]
  · have hcond2 : ¬(({ s with file := some { h with isOpen := false } } : WState).file.isSome
        = true ∧ ({ s with file := some { h with isOpen := false } } : WState).lastDate
          = today2) := fun hx => hne hx.2.symm
    rw [rotateIfNeeded, if_neg hcond2]
    simp

theorem c2_close_failure_keeps_handle_witness :
    rotateIfNeeded envCloseFail "2024-01-15".data sOpen14 [] =
      (some WError.closeFailed,
        { sOpen14 with file := some ⟨"app-2024-01-14.log".data, false⟩ }, []) :=
  (c2_close_failure_keeps_handle envCloseFail "2024-01-15".data sOpen14 []
    ⟨"app-2024-01-14.log".data, true⟩ rfl (by decide) (Or.inr rfl)).1

theorem rotateOpenPhase_superset (env : OsEnv) (today : Str) (s : WState) (d : Disk)
    (nm : Str) (hm : s.maxFiles ≤ 0) :
    ∀ e ∈ d, e ∈ (rotateOpenPhase env today s d nm).2.2 := by
  intro e he
  unfold rotateOpenPhase
  split
  · exact he
  split
  · exact he
  split
  · exact he
  split
  · exact he
  have hnp : ¬(0 < s.maxFiles) := not_lt.mpr hm
  simp only [if_neg hnp]
  unfold ensureFile
  split
  · exact he
  · exact List.mem_append_left _ he

/-- Claim C10: for a writer whose retention limit is zero or negative, a
rotation check never invokes pruning and never deletes a file: every
directory entry present before the check is still present after it, for
every environment and date. -/
theorem c10_no_delete_when_limit_nonpos (env : OsEnv) (today : Str) (s : WState)
    (d : Disk) (hm : s.maxFiles ≤ 0) :
    ∀ e ∈ d, e ∈ (rotateIfNeeded env today s d).2.2 := by
  intro e he
  unfold rotateIfNeeded
  split
  · exact he
  cases hf : s.file with
  | some h =>
    simp only [hf]
    split
    · exact he
    · exact rotateOpenPhase_superset env today { s with file := none } d _ hm e he
  | none =>
    simp only [hf]
    exact rotateOpenPhase_superset env today s d _ hm e he

def sNeg : WState := ⟨"app.log".data, none, [], false, -2⟩

def eOld : DirEntry := ⟨"app-2024-01-01.log".data, false, 1, []⟩

theorem c10_no_delete_when_limit_nonpos_witness :
    eOld ∈ (rotateIfNeeded envOk "2024-01-15".data sNeg [eOld]).2.2 :=
  c10_no_delete_when_limit_nonpos envOk "2024-01-15".data sNeg [eOld] (by decide)
    eOld (by decide)

theorem write_staleClosed (s : WState) (d : Disk) (p : Bytes) (hs : staleClosed s) :
    (write s d p).1 = (0, some WError.closedHandle) ∧ (write s d p).2 = d := by
  obtain ⟨h, hf, ho⟩ := hs
  constructor <;> simp [write, hf, ho]

theorem closeW_staleClosed (env : OsEnv) (s : WState) (hs : staleClosed s) :
    (closeW env s).1 = some WError.closedHandle ∧ staleClosed (closeW env s).2 := by
  obtain ⟨h, hf, ho⟩ := hs
  constructor
  · simp [closeW, hf, ho]
  · refine ⟨h, ?_, ho⟩
    simp [closeW, hf, ho]

theorem rot_staleClosed (env : OsEnv) (today : Str) (s : WState) (d : Disk)
    (hs : staleClosed s) : staleClosed (rotateIfNeeded env today s d).2.1 := by
  obtain ⟨h, hf, ho⟩ := hs
  by_cases hdt : s.lastDate = today
  · rw [rotateIfNeeded, if_pos ⟨by simp [hf], hdt⟩]
    exact ⟨h, hf, ho⟩
  · have hcond : ¬(s.file.isSome = true ∧ s.lastDate = today) := fun hx => hdt hx.2
    rw [rotateIfNeeded, if_neg hcond, hf]
    have hbool : (decide (h.isOpen = false) || env.closeFails) = true := by simp [ho]
    simp only [hbool]
    rw [if_pos trivial]
    exact ⟨{ h with isOpen := false }, rfl, rfl⟩

theorem stepOp_staleClosed (op : WOp) (sd : WState × Disk) (hs : staleClosed sd.1) :
    staleClosed (stepOp op sd).1 := by
  cases op with
  | wr p => exact hs
  | cl env => exact (closeW_staleClosed env sd.1 hs).2
  | rot env today => exact rot_staleClosed env today sd.1 sd.2 hs

theorem runOps_staleClosed (ops : List WOp) (sd : WState × Disk) (hs : staleClosed sd.1) :
    staleClosed (runOps ops sd).1 := by
  induction ops generalizing sd with
  | nil => exact hs
  | cons op ops ih => exact ih (stepOp op sd) (stepOp_staleClosed op sd hs)

theorem staleClosed_not_open (s : WState) (hs : staleClosed s) : ¬ isOpenSt s := by
  obtain ⟨h, hf, ho⟩ := hs
  rintro ⟨h2, hf2, ho2⟩
  rw [hf] at hf2
  injection hf2 with heq
  rw [← heq] at ho2
  rw [ho] at ho2
  cases ho2

/-- Claim C7: after a first `Close` on a writer holding an open file, the
writer never returns to the Open state: the close marks the stop channel,
releases the handle but keeps the (now stale) file field, and along *every*
subsequent sequence of `Write`, `Close` and rotation-check operations the
writer stays non-open, every `Write` fails with a closed-handle error, and
every further `Close` fails (the handle is already released) — all
operations being total functions, none can panic. -/
theorem c7_closed_forever (s : WState) (h : Handle) (env : OsEnv)
    (hf : s.file = some h) (ho : h.isOpen = true) :
    (env.closeFails = false → (closeW env s).1 = none) ∧
      (closeW env s).2.stopped = true ∧
      staleClosed (closeW env s).2 ∧
      (∀ ops d, ¬ isOpenSt (runOps ops ((closeW env s).2, d)).1) ∧
      (∀ ops d p,
        (write (runOps ops ((closeW env s).2, d)).1
          (runOps ops ((closeW env s).2, d)).2 p).1 = (0, some WError.closedHandle)) ∧
      (∀ ops d env2,
        (closeW env2 (runOps ops ((closeW env s).2, d)).1).1 = some WError.closedHandle) := by
  have hstale : staleClosed (closeW env s).2 := by
    by_cases hcf : env.closeFails
    · exact ⟨{ h with isOpen := false }, by simp [closeW, hf, ho, hcf], rfl⟩
    · exact ⟨{ h with isOpen := false }, by simp [closeW, hf, ho, hcf], rfl⟩
  refine ⟨fun hcf => by simp [closeW, hf, ho, hcf], ?_, hstale, ?_, ?_, ?_⟩
  · by_cases hcf : env.closeFails <;> simp [closeW, hf, ho, hcf]
  · intro ops d
    exact staleClosed_not_open _ (runOps_staleClosed ops _ hstale)
  · intro ops d p
    exact (write_staleClosed _ _ p (runOps_staleClosed ops _ hstale)).1
  · intro ops d env2
    exact (closeW_staleClosed env2 _ (runOps_staleClosed ops _ hstale)).1

theorem c7_closed_forever_witness :
    (write (runOps [] ((closeW envOk sOpen15).2, dOne)).1
      (runOps [] ((closeW envOk sOpen15).2, dOne)).2 [3]).1 =
        (0, some WError.closedHandle) :=
  (c7_closed_forever sOpen15 hOpen15 envOk rfl rfl).2.2.2.2.1 [] dOne [3]

theorem rotateOpenPhase_prune_err (env : OsEnv) (today : Str) (s : WState) (d : Disk)
    (newName nm : Str) :
    (rotateOpenPhase env today s d newName).1 = some (WError.pruneFailed nm) →
      (rotateOpenPhase env today s d newName).2.1 =
        { s with file := some ⟨newName, true⟩, lastDate := today } := by
  unfold rotateOpenPhase
  split
  · intro h
    simp at h
  split
  · intro h
    simp at h
  split
  · intro h
    simp at h
  split
  · intro h
    simp at h
  split
  · split
    · intro _
      rfl
    · intro h
      simp at h
  · intro h
    simp at h

/-- Claim C3: when a rotation check fails in retention pruning, the new
file handle and the new date were already committed — the writer ends the
failed check holding an open handle on the freshly derived rotated file
with `lastDate = today` — so a `Write` immediately after such a
cleanup-only failure succeeds (full length, no error) against the newly
opened file. -/
theorem c3_prune_error_after_commit (env : OsEnv) (today : Str) (s : WState) (d : Disk)
    (nm : Str) (hres : (rotateIfNeeded env today s d).1 = some (WError.pruneFailed nm)) :
    (rotateIfNeeded env today s d).2.1.file =
        some ⟨rotatedName s.basePath today, true⟩ ∧
      (rotateIfNeeded env today s d).2.1.lastDate = today ∧
      ∀ p, (write (rotateIfNeeded env today s d).2.1
        (rotateIfNeeded env today s d).2.2 p).1 = (p.length, none) := by
  by_cases hfast : s.file.isSome = true ∧ s.lastDate = today
  · rw [rotateIfNeeded, if_pos hfast] at hres
    simp at hres
  · cases hff : s.file with
    | none =>
      have hrw : rotateIfNeeded env today s d =
          rotateOpenPhase env today s d (rotatedName s.basePath today) := by
        rw [rotateIfNeeded, if_neg hfast, hff]
      rw [hrw] at hres ⊢
      have hst := rotateOpenPhase_prune_err env today s d (rotatedName s.basePath today) nm hres
      refine ⟨by rw [hst], by rw [hst], fun p => ?_⟩
      simp [write, hst]
    | some h =>
      by_cases hcl : (decide (h.isOpen = false) || env.closeFails) = true
      · have hrw : (rotateIfNeeded env today s d).1 = some WError.closeFailed := by
          rw [rotateIfNeeded, if_neg hfast, hff]
          exact congrArg Prod.fst (if_pos hcl)
        rw [hrw] at hres
        simp at hres
      · have hrw : rotateIfNeeded env today s d =
            rotateOpenPhase env today { s with file := none } d
              (rotatedName s.basePath today) := by
          rw [rotateIfNeeded, if_neg hfast, hff]
          exact if_neg hcl
        rw [hrw] at hres ⊢
        have hst := rotateOpenPhase_prune_err env today { s with file := none } d
          (rotatedName s.basePath today) nm hres
        refine ⟨by rw [hst], by rw [hst], fun p => ?_⟩
        simp [write, hst]

def envPr : OsEnv := ⟨false, false, false, false, false, ["app-2024-01-14.log".data], 10⟩

def sPr : WState := ⟨"app.log".data, none, [], false, 1⟩

def dPr : Disk := [⟨"app-2024-01-14.log".data, false, 1, []⟩]

theorem c3_prune_error_after_commit_witness :
    (write (rotateIfNeeded envPr "2024-01-15".data sPr dPr).2.1
      (rotateIfNeeded envPr "2024-01-15".data sPr dPr).2.2 [9]).1 = (1, none) :=
  (c3_prune_error_after_commit envPr "2024-01-15".data sPr dPr
    "app-2024-01-14.log".data (by decide)).2.2 [9]

/-- Abbreviation (proof-local): the candidates sorted ascending by mtime. -/
def pruneSorted (s : WState) (d : Disk) : List DirEntry :=
  List.insertionSort entLE (d.filter (logPat s.basePath))

/-- Abbreviation (proof-local): how many files the pruning loop deletes. -/
def pruneK (s : WState) (d : Disk) : Nat :=
  (d.filter (logPat s.basePath)).length - s.maxFiles.toNat

/-- Abbreviation (proof-local): the names the pruning loop deletes. -/
def pruneDelNames (s : WState) (d : Disk) : List Str :=
  ((pruneSorted s d).take (pruneK s d)).map DirEntry.name

theorem deleteOldest_no_fail (env : OsEnv) (hrm : env.removeFailSet = []) :
    ∀ (nms : List Str) (d : Disk),
      (deleteOldest env nms d).1 = none ∧
        (deleteOldest env nms d).2 = d.filter fun e => decide (e.name ∉ nms) := by
  intro nms
  induction nms with
  | nil =>
    intro d
    refine ⟨rfl, ?_⟩
    simp [deleteOldest]
  | cons n rest ih =>
    intro d
    have hn : n ∉ env.removeFailSet := by simp [hrm]
    refine ⟨?_, ?_⟩
    · simp only [deleteOldest, if_neg hn]
      exact (ih _).1
    · simp only [deleteOldest, if_neg hn]
      rw [(ih _).2, removeEntry, List.filter_filter]
      apply List.filter_congr
      intro e _
      by_cases h1 : e.name = n <;> by_cases h2 : e.name ∈ rest <;> simp [h1, h2]

theorem cleanOldLogFiles_le (env : OsEnv) (s : WState) (d : Disk)
    (hle : ((d.filter (logPat s.basePath)).length : Int) ≤ s.maxFiles) :
    cleanOldLogFiles env s d = (none, d) := by
  unfold cleanOldLogFiles
  rw [if_pos hle]

theorem cleanOldLogFiles_over (env : OsEnv) (s : WState) (d : Disk)
    (hrm : env.removeFailSet = [])
    (hover : ¬ ((d.filter (logPat s.basePath)).length : Int) ≤ s.maxFiles) :
    cleanOldLogFiles env s d =
      (none, d.filter fun e => decide (e.name ∉ pruneDelNames s d)) := by
  unfold cleanOldLogFiles
  rw [if_neg hover]
  obtain ⟨ha, hb⟩ := deleteOldest_no_fail env hrm (pruneDelNames s d) d
  exact Prod.ext ha hb

theorem filter_not_mem_take_names (t dr : List DirEntry)
    (hnd : ((t ++ dr).map DirEntry.name).Nodup) :
    (t ++ dr).filter (fun e => decide (e.name ∉ t.map DirEntry.name)) = dr := by
  rw [List.filter_append]
  have hdisj : (t.map DirEntry.name).Disjoint (dr.map DirEntry.name) := by
    rw [List.map_append] at hnd
    exact (List.nodup_append.mp hnd).2.2
  have h1 : t.filter (fun e => decide (e.name ∉ t.map DirEntry.name)) = [] := by
    rw [List.filter_eq_nil_iff]
    intro e he hdec
    exact (of_decide_eq_true hdec) (List.mem_map_of_mem DirEntry.name he)
  have h2 : dr.filter (fun e => decide (e.name ∉ t.map DirEntry.name)) = dr := by
    rw [List.filter_eq_self]
    intro e he
    exact decide_eq_true fun hmem => hdisj hmem (List.mem_map_of_mem DirEntry.name he)
  rw [h1, h2, List.nil_append]

theorem sorted_filter_del (l : List DirEntry) (k : Nat)
    (hnd : (l.map DirEntry.name).Nodup) :
    (List.insertionSort entLE l).filter
        (fun e => decide (e.name ∉
          ((List.insertionSort entLE l).take k).map DirEntry.name))
      = (List.insertionSort entLE l).drop k := by
  have hperm : List.Perm (List.insertionSort entLE l) l := List.perm_insertionSort entLE l
  have hnd2 : ((List.insertionSort entLE l).map DirEntry.name).Nodup :=
    ((hperm.map DirEntry.name).nodup_iff).mpr hnd
  have hnd3 : (((List.insertionSort entLE l).take k ++
      (List.insertionSort entLE l).drop k).map DirEntry.name).Nodup := by
    rw [List.take_append_drop]
    exact hnd2
  have hmain := filter_not_mem_take_names ((List.insertionSort entLE l).take k)
    ((List.insertionSort entLE l).drop k) hnd3
  rw [List.take_append_drop] at hmain
  exact hmain

theorem filter_comm_disk (d : Disk) (p q : DirEntry → Bool) :
    (d.filter q).filter p = (d.filter p).filter q := by
  rw [List.filter_filter, List.filter_filter]
  apply List.filter_congr
  intro e _
  exact Bool.and_comm _ _

/-- Claim C4: with retention limit `N > 0` and deletion succeeding, if more
than `N` files match the rotation naming convention then after pruning
exactly `N` matching files remain and every deleted matching file is no
newer than every surviving matching file (the pruner sorts ascending by
modification time and deletes the oldest `count - N`); non-matching
entries are untouched; if at most `N` files match, pruning deletes
nothing. -/
theorem c4_retention_prunes_to_limit (env : OsEnv) (s : WState) (d : Disk)
    (hnd : (d.map DirEntry.name).Nodup) (hpos : 0 < s.maxFiles)
    (hrm : env.removeFailSet = []) :
    (((d.filter (logPat s.basePath)).length : Int) ≤ s.maxFiles →
        cleanOldLogFiles env s d = (none, d)) ∧
      (s.maxFiles < ((d.filter (logPat s.basePath)).length : Int) →
        (cleanOldLogFiles env s d).1 = none ∧
          ((((cleanOldLogFiles env s d).2.filter (logPat s.basePath)).length : Int)
            = s.maxFiles) ∧
          (∀ a ∈ d.filter (logPat s.basePath), a ∉ (cleanOldLogFiles env s d).2 →
            ∀ b ∈ (cleanOldLogFiles env s d).2.filter (logPat s.basePath),
              a.mtime ≤ b.mtime) ∧
          (∀ e ∈ d, logPat s.basePath e = false → e ∈ (cleanOldLogFiles env s d).2)) := by
  refine ⟨cleanOldLogFiles_le env s d, fun hover => ?_⟩
  have hover' : ¬ ((d.filter (logPat s.basePath)).length : Int) ≤ s.maxFiles :=
    not_le.mpr hover
  have hcl := cleanOldLogFiles_over env s d hrm hover'
  have hMnd : ((d.filter (logPat s.basePath)).map DirEntry.name).Nodup := by
    have hsub : (d.filter (logPat s.basePath)).Sublist d := List.filter_sublist d
    exact List.Nodup.sublist (hsub.map DirEntry.name) hnd
  have hMperm : List.Perm (pruneSorted s d) (d.filter (logPat s.basePath)) :=
    List.perm_insertionSort entLE _
  have hfd : (pruneSorted s d).filter (fun e => decide (e.name ∉ pruneDelNames s d))
      = (pruneSorted s d).drop (pruneK s d) :=
    sorted_filter_del (d.filter (logPat s.basePath)) (pruneK s d) hMnd
  have hcomm : ((cleanOldLogFiles env s d).2).filter (logPat s.basePath)
      = (d.filter (logPat s.basePath)).filter
          (fun e => decide (e.name ∉ pruneDelNames s d)) := by
    rw [hcl]
    exact filter_comm_disk d (logPat s.basePath) _
  have hpermf : List.Perm
      ((d.filter (logPat s.basePath)).filter (fun e => decide (e.name ∉ pruneDelNames s d)))
      ((pruneSorted s d).drop (pruneK s d)) := by
    have hp := hMperm.filter (fun e => decide (e.name ∉ pruneDelNames s d))
    rw [hfd] at hp
    exact hp.symm
  have hkle : s.maxFiles.toNat < (d.filter (logPat s.basePath)).length := by
    omega
  have hlenN : (((cleanOldLogFiles env s d).2.filter (logPat s.basePath)).length)
      = s.maxFiles.toNat := by
    rw [hcomm, hpermf.length_eq, List.length_drop]
    have hslen : (pruneSorted s d).length = (d.filter (logPat s.basePath)).length :=
      List.length_insertionSort entLE _
    rw [hslen]
    unfold pruneK
    omega
  have hndsrt : ((pruneSorted s d).map DirEntry.name).Nodup :=
    ((hMperm.map DirEntry.name).nodup_iff).mpr hMnd
  refine ⟨by rw [hcl], ?_, ?_, ?_⟩
  · rw [hlenN]
    exact Int.toNat_of_nonneg hpos.le
  · intro a haM hnotin b hb
    have hasrt : a ∈ pruneSorted s d := hMperm.mem_iff.mpr haM
    have haname : a.name ∈ pruneDelNames s d := by
      by_contra hnn
      apply hnotin
      rw [hcl]
      exact List.mem_filter.mpr ⟨(List.mem_filter.mp haM).1, decide_eq_true hnn⟩
    have hatake : a ∈ (pruneSorted s d).take (pruneK s d) := by
      obtain ⟨x, hx, hxe⟩ := List.mem_map.mp haname
      have hxsrt : x ∈ pruneSorted s d := List.take_subset _ _ hx
      have hxa : x = a := List.inj_on_of_nodup_map hndsrt hxsrt hasrt hxe
      rw [← hxa]
      exact hx
    have hbdrop : b ∈ (pruneSorted s d).drop (pruneK s d) := by
      rw [hcomm] at hb
      exact hpermf.mem_iff.mp hb
    have hsorted : List.Pairwise entLE ((pruneSorted s d).take (pruneK s d) ++
        (pruneSorted s d).drop (pruneK s d)) := by
      rw [List.take_append_drop]
      exact List.sorted_insertionSort entLE _
    exact (List.pairwise_append.mp hsorted).2.2 a hatake b hbdrop
  · intro e he hne
    rw [hcl]
    refine List.mem_filter.mpr ⟨he, decide_eq_true ?_⟩
    intro hmem
    obtain ⟨x, hx, hxe⟩ := List.mem_map.mp hmem
    have hxsrt : x ∈ pruneSorted s d := List.take_subset _ _ hx
    have hxM : x ∈ d.filter (logPat s.basePath) := hMperm.mem_iff.mp hxsrt
    have hxd : x ∈ d := (List.mem_filter.mp hxM).1
    have hxpat : logPat s.basePath x = true := (List.mem_filter.mp hxM).2
    have hxa : x = e := List.inj_on_of_nodup_map hnd hxd he hxe
    rw [hxa, hne] at hxpat
    cases hxpat

def sC4 : WState := ⟨"app.log".data, none, [], false, 1⟩

def dC4 : Disk :=
  [⟨"app-2024-01-01.log".data, false, 3, []⟩,
   ⟨"app-2024-01-02.log".data, false, 1, []⟩,
   ⟨"app-2024-01-03.log".data, false, 2, []⟩,
   ⟨"other.txt".data, false, 0, []⟩]

theorem c4_retention_prunes_to_limit_witness :
    (((cleanOldLogFiles envOk sC4 dC4).2.filter (logPat sC4.basePath)).length : Int) = 1 :=
  ((c4_retention_prunes_to_limit envOk sC4 dC4 (by decide) (by decide) rfl).2
    (by decide)).2.1

/-- The date shape `YYYY-MM-DD` produced by `time.Format("2006-01-02")`:
four digits, dash, two digits, dash, two digits. -/
def isDateShape : Str → Bool
  | [y1, y2, y3, y4, s1, m1, m2, s2, d1, d2] =>
    y1.isDigit && y2.isDigit && y3.isDigit && y4.isDigit && s1 = '-' &&
      m1.isDigit && m2.isDigit && s2 = '-' && d1.isDigit && d2.isDigit
  | _ => false

def eBadInfix : DirEntry := ⟨"app-xx.log".data, false, 0, []⟩

/-- Claim C5, counterexample: the claim says entries whose infix is not a
date are never candidates for deletion.  For base path "app.log" the entry
"app-xx.log" — infix "xx", not a date — passes the candidate filter, and
a pruning run with limit 1 actually deletes it. -/
theorem c5_counterexample :
    eBadInfix.name = "app".data ++ ['-'] ++ "xx".data ++ ".log".data ∧
      isDateShape "xx".data = false ∧
      logPat "app.log".data eBadInfix = true ∧
      eBadInfix ∉ (cleanOldLogFiles envOk ⟨"app.log".data, none, [], false, 1⟩
        [eBadInfix, ⟨"app-2024-01-02.log".data, false, 1, []⟩]).2 := by
  decide

/-- Claim C5 as amended: the pruner's deletion candidates are exactly the
non-directory entries whose name starts with the base stem followed by
`"-"` and ends with the base extension (a vacuously true condition when
the base path has no extension); the infix between them is not validated
as a date.  Directories and the base file itself are never candidates. -/
theorem c5_candidate_filter (base : Str) (e : DirEntry) :
    (logPat base e = true ↔
      (e.isDir = false ∧ (stemOf base ++ ['-']) <+: e.name ∧ goExt base <:+ e.name)) ∧
      (e.isDir = true → logPat base e = false) ∧
      (e.name = base → logPat base e = false) := by
  have hiff : logPat base e = true ↔
      (e.isDir = false ∧ (stemOf base ++ ['-']) <+: e.name ∧ goExt base <:+ e.name) := by
    by_cases h : goExt base = []
    · rw [stemOf_eq_of_ext_nil h] at *
      simp [logPat, h, List.isPrefixOf_iff_prefix, List.isSuffixOf_iff_suffix,
        stemOf_eq_of_ext_nil h]
    · simp [logPat, h, List.isPrefixOf_iff_prefix, List.isSuffixOf_iff_suffix, and_assoc]
  have hbase : ¬ (stemOf base ++ ['-'] <+: base) := by
    rcases goExt_eq_nil_or_dot base with hx | ⟨t, hx⟩
    · rw [stemOf_eq_of_ext_nil hx]
      intro hp
      have hle := hp.length_le
      simp at hle
    · intro hp
      have hsplit := goExt_split base
      rw [hx] at hsplit
      have hp2 : stemOf base ++ ['-'] <+: stemOf base ++ '.' :: t := by
        rw [hsplit]
        exact hp
      rw [List.prefix_append_right_inj] at hp2
      obtain ⟨u, hu⟩ := hp2
      simp only [List.cons_append, List.nil_append, List.cons.injEq] at hu
      exact absurd hu.1 (by decide)
  refine ⟨hiff, fun hdir => by simp [logPat, hdir], fun hn => ?_⟩
  cases hl : logPat base e with
  | false => rfl
  | true =>
    obtain ⟨_, hp, _⟩ := hiff.mp hl
    rw [hn] at hp
    exact absurd hp hbase

theorem c5_candidate_filter_witness :
    logPat "app.log".data ⟨"app.log".data, false, 5, []⟩ = false :=
  (c5_candidate_filter "app.log".data ⟨"app.log".data, false, 5, []⟩).2.2 rfl

/-- Go `strings.ToLower` restricted to ASCII letters (the only characters
the recognized configuration values contain). -/
def goToLower (p : Str) : Str :=
  p.map fun c => if 'A' ≤ c ∧ c ≤ 'Z' then Char.ofNat (c.toNat + 32) else c

/-- ASCII whitespace as trimmed by Go `strings.TrimSpace`. -/
def isSpaceChar (c : Char) : Bool :=
  c = ' ' || c = '\t' || c = '\n' || c = '\r'

def trimSpace (p : Str) : Str :=
  ((p.dropWhile isSpaceChar).reverse.dropWhile isSpaceChar).reverse

/- The `Level` constants of logger.go lines 8-13 (a Go int). -/

def LevelDebug : Int := -4

def LevelInfo : Int := 0

def LevelWarn : Int := 4

def LevelError : Int := 8

/-- `parseLevel` (factory.go lines 50-63): lower-cased, trimmed level
string; empty defaults to info; unknown strings report an error (the Bool
component). -/
def parseLevel (s : Str) : Int × Bool :=
  let t := goToLower (trimSpace s)
  if t = "debug".data then (LevelDebug, false)
  else if t = "info".data ∨ t = [] then (LevelInfo, false)
  else if t = "warn".data ∨ t = "warning".data then (LevelWarn, false)
  else if t = "error".data ∨ t = "err".data then (LevelError, false)
  else (LevelInfo, true)

/-- The `Config` struct (config source file): Level, Format, Output,
Daily, MaxFiles. -/
structure Config where
  level : Str
  format : Str
  output : Str
  daily : Bool
  maxFiles : Int
deriving DecidableEq, Repr

/-- A reflected struct field value together with its kind. -/
inductive FieldVal where
  | strF (s : Str)
  | boolF (b : Bool)
  | intF (n : Int)
  | otherF
deriving DecidableEq, Repr

/-- A Go `interface{}` configuration argument, classified the way
`NewFromConfig` (factory.go lines 10-48) inspects it: a typed `*Config`; a
struct value, whose fields are read reflectively by name and kind; or any
other kind of value — nil (reflect.Invalid), an integer, a map, a pointer
to a struct type other than `Config` (kind Ptr, not Struct). -/
inductive ConfigArg where
  | ptrConfig (c : Config)
  | structVal (fields : List (Str × FieldVal))
  | nilArg
  | intArg (n : Int)
  | mapArg
  | ptrOtherStruct (fields : List (Str × FieldVal))
deriving DecidableEq, Repr

/-- `reflect.Value.FieldByName`. -/
def lookupField : List (Str × FieldVal) → Str → Option FieldVal
  | [], _ => none
  | (k, v) :: rest, nm => if k = nm then some v else lookupField rest nm

/-- A field read guarded by `IsValid` and `Kind() == reflect.String`. -/
def fieldStr (fs : List (Str × FieldVal)) (nm : Str) : Str :=
  match lookupField fs nm with
  | some (FieldVal.strF s) => s
  | _ => []

/-- A field read guarded by `IsValid` and `Kind() == reflect.Bool`. -/
def fieldBool (fs : List (Str × FieldVal)) (nm : Str) : Bool :=
  match lookupField fs nm with
  | some (FieldVal.boolF b) => b
  | _ => false

/-- The (level, format, output, daily, maxFiles) quintuple `NewFromConfig`
assembles (factory.go lines 10-40): a `*Config` supplies all five fields; a
struct value supplies Level/Format/Output/Daily via reflection when the
field exists with the matching kind — MaxFiles is never read in this
branch; every other kind of value leaves every field at its zero value. -/
def extractConfig : ConfigArg → Str × Str × Str × Bool × Int
  | ConfigArg.ptrConfig c => (c.level, c.format, c.output, c.daily, c.maxFiles)
  | ConfigArg.structVal fs =>
    (fieldStr fs "Level".data, fieldStr fs "Format".data, fieldStr fs "Output".data,
      fieldBool fs "Daily".data, 0)
  | _ => ([], [], [], false, 0)

inductive OutTarget where
  | stdout
  | stderr
  | fileOut (path : Str) (daily : Bool) (maxFiles : Int)
deriving DecidableEq, Repr

inductive FmtKind where
  | text
  | json
deriving DecidableEq, Repr

/-- The logger `NewSlogLogger` (sloglogger.go lines 60-98) constructs,
described by level, handler format and output target.  File-open failures
of the file branch are not modelled; the defaults claim only exercises the
stdout branch, which cannot fail. -/
structure LoggerDesc where
  level : Int
  fmt : FmtKind
  out : OutTarget
deriving DecidableEq, Repr

def newSlogLogger (level : Int) (format output : Str) (daily : Bool)
    (maxFiles : Int) : LoggerDesc :=
  let o := goToLower output
  let out := if o = [] ∨ o = "stdout".data then OutTarget.stdout
    else if o = "stderr".data then OutTarget.stderr
    else OutTarget.fileOut output daily maxFiles
  let f := if goToLower format = "json".data then FmtKind.json else FmtKind.text
  ⟨level, f, out⟩

/-- `NewFromConfig` (factory.go lines 10-48): extract the configuration
fields, parse the level (an unknown level aborts with an error), then
construct the logger. -/
def newFromConfig (v : ConfigArg) : Option LoggerDesc :=
  match extractConfig v with
  | (l, f, o, dy, m) =>
    match parseLevel l with
    | (_, true) => none
    | (lv, false) => some (newSlogLogger lv f o dy m)

/-- Claim C9: every configuration value that is neither a `*Config` nor a
struct value — nil, an integer, a map, and a pointer to any struct type
other than `Config` — has all configuration fields ignored: extraction
yields the zero values (in particular a pointer to a custom config struct
has its Level/Format/Output/Daily fields silently discarded, and the daily
flag stays false), and the call succeeds with the defaults: level info,
text format, stdout output. -/
theorem c9_non_struct_defaults (n : Int) (fs : List (Str × FieldVal)) :
    extractConfig ConfigArg.nilArg = ([], [], [], false, 0) ∧
      extractConfig (ConfigArg.intArg n) = ([], [], [], false, 0) ∧
      extractConfig ConfigArg.mapArg = ([], [], [], false, 0) ∧
      extractConfig (ConfigArg.ptrOtherStruct fs) = ([], [], [], false, 0) ∧
      newFromConfig ConfigArg.nilArg = some ⟨LevelInfo, FmtKind.text, OutTarget.stdout⟩ ∧
      newFromConfig (ConfigArg.intArg n) = some ⟨LevelInfo, FmtKind.text, OutTarget.stdout⟩ ∧
      newFromConfig ConfigArg.mapArg = some ⟨LevelInfo, FmtKind.text, OutTarget.stdout⟩ ∧
      newFromConfig (ConfigArg.ptrOtherStruct fs) =
        some ⟨LevelInfo, FmtKind.text, OutTarget.stdout⟩ :=
  ⟨rfl, rfl, rfl, rfl, rfl, rfl, rfl, rfl⟩
